import Mathlib

/-!
Verification development for the Image-Checker content-acquisition subsystem.

The definitions below are a shallow embedding of the two Netlify functions
`fb-scrape` (static fetch + metadata extraction) and `screenshot-post`
(render pipeline), translated from the JavaScript source.  JS strings are
modelled as Lean `String`s (manipulated through their character lists),
JS regular-expression matching for the concrete patterns in the source is
modelled by explicit executable matchers, and host builtins (`fetch`,
`new URL`, `JSON.parse`, the headless browser) are modelled by explicit
parameters or simplified executable functions documented at their
definitions.
-/

set_option maxRecDepth 20000

/-! ### Character and string helpers (JS semantics) -/

/-- ASCII lowercasing of one character; models the effect of the JS `/i`
regex flag on the ASCII-only patterns appearing in the source. -/
def lowerChar (c : Char) : Char :=
  if 65 ≤ c.toNat ∧ c.toNat ≤ 90 then Char.ofNat (c.toNat + 32) else c

def lowerChars (l : List Char) : List Char := l.map lowerChar

/-- JS whitespace class `\s` (the members relevant to HTML text). -/
def isWS (c : Char) : Bool :=
  c == ' ' || c == '\t' || c == '\n' || c == '\r' || c.toNat == 12 || c.toNat == 11

def trimLeftWS (l : List Char) : List Char := l.dropWhile isWS

/-- Remove trailing whitespace. -/
def trimRightWS : List Char → List Char
  | [] => []
  | x :: xs =>
    if trimRightWS xs = [] ∧ isWS x = true then [] else x :: trimRightWS xs

/-- Model of JS `String.prototype.trim`. -/
def jsTrimChars (l : List Char) : List Char := trimRightWS (trimLeftWS l)

def jsTrim (s : String) : String := String.mk (jsTrimChars s.toList)

/-- JS `a || d` for an optionally-present string (absent or `""` is falsy). -/
def jsOrS (v : Option String) (d : String) : String :=
  match v with
  | none => d
  | some s => if s = "" then d else s

/-- JS `a || b` on strings (`""` is the only falsy string). -/
def jsOr2 (a b : String) : String := if a = "" then b else a

/-- Split a character list on a separator character (JS `split(sep)` for a
one-character separator). -/
def splitOnChar (sep : Char) : List Char → List (List Char)
  | [] => [[]]
  | c :: rest =>
    match splitOnChar sep rest with
    | [] => [[]]
    | h :: t => if c == sep then [] :: h :: t else (c :: h) :: t

/-- JS `s.startsWith(pre)`. -/
def strStartsWith (s pre : String) : Bool := pre.toList.isPrefixOf s.toList

/-! ### A matcher for the literal-phrase regexes of `isFacebookLoginInterstitial`

The three source patterns consist only of literal characters (matched
case-insensitively) and whitespace gaps `\s+` / `\s*`.  Since every gap is
followed by a non-whitespace literal, greedy whitespace consumption is exact. -/

inductive RTok
  | lit (c : Char)
  | ws0
  | ws1

/-- Does the token pattern match a prefix of `s`? -/
def matchToksAt : List RTok → List Char → Bool
  | [], _ => true
  | RTok.lit c :: ts, x :: xs => (lowerChar x == lowerChar c) && matchToksAt ts xs
  | RTok.lit _ :: _, [] => false
  | RTok.ws0 :: ts, xs => matchToksAt ts (xs.dropWhile isWS)
  | RTok.ws1 :: ts, x :: xs => isWS x && matchToksAt ts (xs.dropWhile isWS)
  | RTok.ws1 :: _, [] => false

/-- Does the token pattern match anywhere in the string (JS `RegExp.test`)? -/
def searchToks (ts : List RTok) : List Char → Bool
  | [] => matchToksAt ts []
  | x :: xs => matchToksAt ts (x :: xs) || searchToks ts xs

def litToks (s : String) : List RTok := s.toList.map RTok.lit

/-- `/See\s+posts,\s+photos\s+and\s+more\s+on\s+Facebook/i` -/
def interstitialPat1 : List RTok :=
  litToks "See" ++ [RTok.ws1] ++ litToks "posts," ++ [RTok.ws1] ++ litToks "photos" ++
  [RTok.ws1] ++ litToks "and" ++ [RTok.ws1] ++ litToks "more" ++ [RTok.ws1] ++
  litToks "on" ++ [RTok.ws1] ++ litToks "Facebook"

/-- `/Log\s*in\s*or\s*sign\s*up\s*to\s*view/i` -/
def interstitialPat2 : List RTok :=
  litToks "Log" ++ [RTok.ws0] ++ litToks "in" ++ [RTok.ws0] ++ litToks "or" ++
  [RTok.ws0] ++ litToks "sign" ++ [RTok.ws0] ++ litToks "up" ++ [RTok.ws0] ++
  litToks "to" ++ [RTok.ws0] ++ litToks "view"

/-- `/Log\s*into\s*Facebook/i` -/
def interstitialPat3 : List RTok :=
  litToks "Log" ++ [RTok.ws0] ++ litToks "into" ++ [RTok.ws0] ++ litToks "Facebook"

/-- `isFacebookLoginInterstitial` from `fb-scrape` (src/unnamed/part_001:278-284). -/
def isFacebookLoginInterstitial (html : String) : Bool :=
  if html = "" then false
  else
    searchToks interstitialPat1 html.toList ||
    searchToks interstitialPat2 html.toList ||
    searchToks interstitialPat3 html.toList

/-! ### The candidate × identity fetch loop of the fb-scrape handler

`safeFetch` (src/unnamed/part_001:178-190) returns `null` on any failure and
otherwise an object `{ ok, status, url, text }`; we model one attempt's result
as `Option FetchResp` and the network itself as a function from
`(candidate, userAgent)` to that result. -/

structure FetchResp where
  ok : Bool
  status : Nat
  url : String
  text : String
deriving DecidableEq

/-- The ordered identity-profile list `['chrome', 'fb']` (src/unnamed/part_001:104). -/
def userAgents : List String := ["chrome", "fb"]

/-- The string pushed onto `tried` for one attempt (src/unnamed/part_001:110). -/
def attemptLabel (candidate ua : String) : String :=
  candidate ++ " [ua:" ++ ua ++ "]"

/-- The break condition of the loop body (src/unnamed/part_001:112-114):
the response exists, is HTTP-ok, has a truthy (non-empty) body text, and the
text is not a login interstitial. -/
def qualifies : Option FetchResp → Bool
  | none => false
  | some r => r.ok && r.text != "" && !(isFacebookLoginInterstitial r.text)

/-- The successful payload: the html text and `res.url || candidate`
(src/unnamed/part_001:115-116). -/
def attemptPayload (candidate : String) (r : FetchResp) : String × String :=
  (r.text, if r.url = "" then candidate else r.url)

/-- The inner `for (const ua of userAgents)` loop for one candidate
(src/unnamed/part_001:109-120); returns the labels pushed onto `tried` and
the payload of the first qualifying attempt, if any. -/
def fbScrapeInner (f : String → String → Option FetchResp) (candidate : String) :
    List String → List String × Option (String × String)
  | [] => ([], none)
  | ua :: uas =>
    if qualifies (f candidate ua) then
      ([attemptLabel candidate ua], (f candidate ua).map (attemptPayload candidate))
    else
      (attemptLabel candidate ua :: (fbScrapeInner f candidate uas).1,
       (fbScrapeInner f candidate uas).2)

/-- The outer `outer: for (const candidate of candidates)` loop with its
labelled break (src/unnamed/part_001:108-121): if the inner loop broke out
with a payload the whole loop stops there, otherwise its labels are kept and
the next candidate is attempted. -/
def fbScrapeLoop (f : String → String → Option FetchResp) :
    List String → List String × Option (String × String)
  | [] => ([], none)
  | c :: cs =>
    if (fbScrapeInner f c userAgents).2.isSome then fbScrapeInner f c userAgents
    else ((fbScrapeInner f c userAgents).1 ++ (fbScrapeLoop f cs).1,
          (fbScrapeLoop f cs).2)

/-- Modelled from the claim (amended): the flattened candidate × identity
product in row-major order. -/
def rowMajorPairs (candidates : List String) : List (String × String) :=
  candidates.flatMap (fun c => userAgents.map (fun ua => (c, ua)))

/-- Modelled from the claim (amended): a single left-to-right scan over the
attempt pairs that stops at the first qualifying attempt and records every
attempted target; returns all labels and a failure when no attempt
qualifies. -/
def scanAttempts (f : String → String → Option FetchResp) :
    List (String × String) → List String × Option (String × String)
  | [] => ([], none)
  | p :: ps =>
    if qualifies (f p.1 p.2) then
      ([attemptLabel p.1 p.2], (f p.1 p.2).map (attemptPayload p.1))
    else
      (attemptLabel p.1 p.2 :: (scanAttempts f ps).1, (scanAttempts f ps).2)

theorem fbScrapeInner_eq_scan (f : String → String → Option FetchResp)
    (candidate : String) (uas : List String) :
    fbScrapeInner f candidate uas = scanAttempts f (uas.map (fun ua => (candidate, ua))) := by
  induction uas with
  | nil => rfl
  | cons ua uas ih =>
    simp only [fbScrapeInner, List.map_cons, scanAttempts, ih]

theorem scanAttempts_append (f : String → String → Option FetchResp)
    (ps qs : List (String × String)) :
    scanAttempts f (ps ++ qs) =
      (if (scanAttempts f ps).2.isSome then scanAttempts f ps
       else ((scanAttempts f ps).1 ++ (scanAttempts f qs).1, (scanAttempts f qs).2)) := by
  induction ps with
  | nil => simp [scanAttempts]
  | cons p ps ih =>
    by_cases hq : qualifies (f p.1 p.2)
    · have e1 : scanAttempts f ((p :: ps) ++ qs) =
          ([attemptLabel p.1 p.2], (f p.1 p.2).map (attemptPayload p.1)) := by
        simp only [List.cons_append, scanAttempts, if_pos hq]
      have e2 : scanAttempts f (p :: ps) =
          ([attemptLabel p.1 p.2], (f p.1 p.2).map (attemptPayload p.1)) := by
        simp only [scanAttempts, if_pos hq]
      cases hr : f p.1 p.2 with
      | none => rw [hr] at hq; simp [qualifies] at hq
      | some r =>
        rw [e1, e2, hr]
        simp
    · have e1 : scanAttempts f ((p :: ps) ++ qs) =
          (attemptLabel p.1 p.2 :: (scanAttempts f (ps ++ qs)).1,
           (scanAttempts f (ps ++ qs)).2) := by
        simp only [List.cons_append, scanAttempts, if_neg hq, List.append_eq]
      have e2 : scanAttempts f (p :: ps) =
          (attemptLabel p.1 p.2 :: (scanAttempts f ps).1, (scanAttempts f ps).2) := by
        simp only [scanAttempts, if_neg hq]
      rw [e1, e2, ih]
      by_cases hs : (scanAttempts f ps).2.isSome
      · simp [hs]
      · simp [hs]

theorem scanAttempts_none_of_all_fail (f : String → String → Option FetchResp)
    (ps : List (String × String)) (h : ∀ p ∈ ps, qualifies (f p.1 p.2) = false) :
    scanAttempts f ps = (ps.map (fun p => attemptLabel p.1 p.2), none) := by
  induction ps with
  | nil => rfl
  | cons p ps ih =>
    have hp : qualifies (f p.1 p.2) = false := h p (List.mem_cons_self _ _)
    have hrest := ih (fun q hq => h q (List.mem_cons_of_mem _ hq))
    simp [scanAttempts, hp, hrest]

theorem fbScrapeLoop_eq_scan (f : String → String → Option FetchResp)
    (candidates : List String) :
    fbScrapeLoop f candidates = scanAttempts f (rowMajorPairs candidates) := by
  induction candidates with
  | nil => rfl
  | cons c cs ih =>
    have hrow : rowMajorPairs (c :: cs) =
        userAgents.map (fun ua => (c, ua)) ++ rowMajorPairs cs := by
      simp [rowMajorPairs]
    have hinner := fbScrapeInner_eq_scan f c userAgents
    rw [hrow, scanAttempts_append, ← hinner, ← ih]
    by_cases hs : (fbScrapeInner f c userAgents).2.isSome
    · simp only [fbScrapeLoop, if_pos hs]
    · simp only [fbScrapeLoop, if_neg hs]

/-- **C1 (amended): corrected claim.** The Static Fetcher attempts
(candidate, identity) pairs in row-major order (all identities for candidate
1, then candidate 2, ...), stops at the first attempt whose response is
HTTP-successful, has a non-empty body, and does not match a
login-interstitial signature (so a login wall returned with HTTP 200 is
non-qualifying and the loop continues), and if no attempt qualifies it
returns a fetch-failed outcome carrying the labels of all attempted
targets. -/
theorem fbScrape_attempts_row_major (f : String → String → Option FetchResp)
    (candidates : List String) :
    fbScrapeLoop f candidates = scanAttempts f (rowMajorPairs candidates) ∧
    ((∀ p ∈ rowMajorPairs candidates, qualifies (f p.1 p.2) = false) →
      fbScrapeLoop f candidates =
        ((rowMajorPairs candidates).map (fun p => attemptLabel p.1 p.2), none)) :=
  ⟨fbScrapeLoop_eq_scan f candidates,
   fun h => (fbScrapeLoop_eq_scan f candidates).trans
     (scanAttempts_none_of_all_fail f (rowMajorPairs candidates) h)⟩

/-- Witness for `fbScrape_attempts_row_major` at a concrete fetch function
(every attempt fails) and candidate list. -/
theorem fbScrape_attempts_row_major_witness :
    fbScrapeLoop (fun _ _ => none) ["c"] =
      ((rowMajorPairs ["c"]).map (fun p => attemptLabel p.1 p.2), none) :=
  (fbScrape_attempts_row_major (fun _ _ => none) ["c"]).2 (by decide)

/-- **C1 counterexample.** The first (and only first) attempt returns a
response that is HTTP-successful (`ok = true`, status 200) and does not match
any login-interstitial signature — per the claim the loop must stop there
with a success — yet because its body is empty the loop continues past it and
ends in the fetch-failed outcome (`none`). -/
theorem fbScrape_empty_body_counterexample :
    (FetchResp.mk true 200 "" "").ok = true ∧
    isFacebookLoginInterstitial (FetchResp.mk true 200 "" "").text = false ∧
    (fbScrapeLoop (fun _ _ => some (FetchResp.mk true 200 "" "")) ["https://x/"]).2 = none := by
  refine ⟨rfl, by decide, by decide⟩

/-! ### A model of the WHATWG `URL` builtin

The source relies on the host's `new URL(...)` for parsing, host rewriting
and relative resolution.  We model the common `scheme://host/path?query#frag`
shape: scheme and host are lowercased, an empty path serializes as `/`,
ports, userinfo, dot-segment removal and percent-(re)encoding are not
modelled (none of the URLs the claims exercise use them). -/

structure JsUrl where
  scheme : String
  host : String
  path : String
  query : String
  frag : String
deriving DecidableEq

def isSchemeChar (c : Char) : Bool :=
  c.isAlpha || c.isDigit || c == '+' || c == '-' || c == '.'

def isHostEnd (c : Char) : Bool := c == '/' || c == '?' || c == '#'

/-- Model of `new URL(s)` for `scheme://...` strings: `none` models the
constructor throwing `TypeError`. -/
def parseUrl (s : String) : Option JsUrl :=
  let cs := s.toList
  let sch := cs.takeWhile isSchemeChar
  match sch, cs.drop sch.length with
  | c0 :: _, ':' :: '/' :: '/' :: r =>
    if c0.isAlpha then
      let host := r.takeWhile (fun c => !(isHostEnd c))
      if host = [] then none
      else
        let r2 := r.drop host.length
        let path := r2.takeWhile (fun c => !(c == '?' || c == '#'))
        let pathStr := if path = [] then "/" else String.mk path
        match r2.drop path.length with
        | '?' :: r4 =>
          let q := r4.takeWhile (fun c => c != '#')
          match r4.drop q.length with
          | '#' :: r6 =>
            some ⟨String.mk (lowerChars sch), String.mk (lowerChars host),
                  pathStr, String.mk q, String.mk r6⟩
          | _ =>
            some ⟨String.mk (lowerChars sch), String.mk (lowerChars host),
                  pathStr, String.mk q, ""⟩
        | '#' :: r4 =>
          some ⟨String.mk (lowerChars sch), String.mk (lowerChars host),
                pathStr, "", String.mk r4⟩
        | _ =>
          some ⟨String.mk (lowerChars sch), String.mk (lowerChars host),
                pathStr, "", ""⟩
    else none
  | _, _ => none

def JsUrl.origin (u : JsUrl) : String := u.scheme ++ "://" ++ u.host

/-- Everything after the origin in the serialized URL
(`u.href.substring(u.origin.length)` in the source). -/
def JsUrl.pathQueryFrag (u : JsUrl) : String :=
  u.path ++ (if u.query = "" then "" else "?" ++ u.query) ++
  (if u.frag = "" then "" else "#" ++ u.frag)

/-- Model of `u.toString()` / `u.href`. -/
def JsUrl.href (u : JsUrl) : String := u.origin ++ u.pathQueryFrag

/-- Model of `new URL(abs).href` for an absolute URL string: `scheme://`
URLs are parsed and re-serialized, other `scheme:`-prefixed strings
(e.g. `data:`) are kept verbatim, anything else fails. -/
def absHref (s : String) : Option String :=
  match parseUrl s with
  | some u => some u.href
  | none =>
    let cs := s.toList
    let sch := cs.takeWhile isSchemeChar
    match sch, cs.drop sch.length with
    | _ :: _, ':' :: '/' :: '/' :: _ => none
    | c0 :: _, ':' :: _ => if c0.isAlpha then some s else none
    | _, _ => none

/-- The directory part of a path: everything up to and including the last
`/`. -/
def dirOf (p : String) : String :=
  let tl := p.toList.reverse.dropWhile (fun c => c != '/')
  if tl = [] then "/" else String.mk tl.reverse

/-- Model of `new URL(rel, base).href`: the base is parsed first (an invalid
base throws regardless of `rel`), an absolute `rel` wins, `//`, `/` and
plain-relative forms are joined against the base.  Dot segments are not
resolved. -/
def resolveUrl (rel base : String) : Option String :=
  match parseUrl base with
  | none => none
  | some b =>
    match absHref rel with
    | some h => some h
    | none =>
      match rel.toList with
      | '/' :: '/' :: _ => (parseUrl (b.scheme ++ ":" ++ rel)).map JsUrl.href
      | '/' :: _ => (parseUrl (b.origin ++ rel)).map JsUrl.href
      | _ => (parseUrl (b.origin ++ dirOf b.path ++ rel)).map JsUrl.href

/-! ### Percent decoding (`decodeURIComponent` and `URLSearchParams`) -/

def hexVal (c : Char) : Option Nat :=
  if 48 ≤ c.toNat ∧ c.toNat ≤ 57 then some (c.toNat - 48)
  else if 97 ≤ c.toNat ∧ c.toNat ≤ 102 then some (c.toNat - 87)
  else if 65 ≤ c.toNat ∧ c.toNat ≤ 70 then some (c.toNat - 55)
  else none

/-- Model of `decodeURIComponent`: a malformed percent escape throws
(`none`); a valid escape `%XY` decodes to the character with that code
(multi-byte UTF-8 sequences are not modelled). -/
def percentDecodeChars : List Char → Option (List Char)
  | [] => some []
  | '%' :: a :: b :: rest =>
    match hexVal a, hexVal b with
    | some ha, some hb => (percentDecodeChars rest).map (fun r => Char.ofNat (16 * ha + hb) :: r)
    | _, _ => none
  | '%' :: _ => none
  | c :: rest => (percentDecodeChars rest).map (fun r => c :: r)

def percentDecode (s : String) : Option String :=
  (percentDecodeChars s.toList).map String.mk

/-- Model of `URLSearchParams` value decoding: `+` becomes a space, a valid
`%XY` escape decodes, a malformed escape is kept literally. -/
def formDecodeChars : List Char → List Char
  | [] => []
  | '+' :: rest => ' ' :: formDecodeChars rest
  | '%' :: a :: b :: rest =>
    match hexVal a, hexVal b with
    | some ha, some hb => Char.ofNat (16 * ha + hb) :: formDecodeChars rest
    | _, _ => '%' :: a :: formDecodeChars (b :: rest)
  | c :: rest => c :: formDecodeChars rest

/-- Model of `u.searchParams.get(key)`: split the query on `&`, each part on
its first `=`, decode, and return the first value whose key matches. -/
def searchParamsGet (query key : String) : Option String :=
  ((splitOnChar '&' query.toList).map (fun cs =>
    let k := cs.takeWhile (fun c => c != '=')
    let v := match cs.drop k.length with
      | '=' :: r => r
      | _ => []
    (String.mk (formDecodeChars k), String.mk (formDecodeChars v)))).find?
      (fun kv => kv.1 == key) |>.map (fun kv => kv.2)

/-! ### `buildCandidateUrls` (src/unnamed/part_001:169-176 and
src/netlify/functions/fb-scrape.js:80-87, identical) -/

/-- `buildCandidateUrls`: `none` models `new URL(input)` throwing (the
handler's outer catch turns that into the `exception` response). -/
def buildCandidateUrls (input : String) : Option (List String) :=
  (parseUrl input).map (fun u =>
    let hosts0 := [u.host]
    let hosts1 := if hosts0.contains "m.facebook.com" then hosts0
      else hosts0 ++ ["m.facebook.com"]
    let hosts2 := if hosts1.contains "mbasic.facebook.com" then hosts1
      else hosts1 ++ ["mbasic.facebook.com"]
    hosts2.map (fun h => "https://" ++ h ++ u.pathQueryFrag))

/-- Modelled from the claim: keep the first occurrence of each host, drop
later duplicates. -/
def dedupKeepFirstAux (seen : List String) : List String → List String
  | [] => []
  | x :: xs =>
    if seen.contains x then dedupKeepFirstAux seen xs
    else x :: dedupKeepFirstAux (x :: seen) xs

def dedupKeepFirst (l : List String) : List String := dedupKeepFirstAux [] l

/-- **C4.** For every parsable input URL, the Candidate Generator produces
the ordered, deduplicated host list (original host first, then the mobile
mirror `m.facebook.com`, then the basic mirror `mbasic.facebook.com`, first
occurrences kept), each host paired with the input's path, query and
fragment; the host list has no duplicates and starts with the input's
host. -/
theorem buildCandidateUrls_ordered_dedup (input : String) (u : JsUrl)
    (h : parseUrl input = some u) :
    ∃ hosts : List String,
      hosts = dedupKeepFirst [u.host, "m.facebook.com", "mbasic.facebook.com"] ∧
      buildCandidateUrls input =
        some (hosts.map (fun hx => "https://" ++ hx ++ u.pathQueryFrag)) ∧
      hosts.Nodup ∧ hosts.head? = some u.host := by
  unfold buildCandidateUrls
  rw [h]
  simp only [Option.map_some']
  by_cases hm : u.host = "m.facebook.com"
  · refine ⟨["m.facebook.com", "mbasic.facebook.com"],
      by rw [hm]; rfl, by simp [hm], by decide, by simp [hm]⟩
  · by_cases hb : u.host = "mbasic.facebook.com"
    · refine ⟨["mbasic.facebook.com", "m.facebook.com"],
        by rw [hb]; rfl, by simp [hb], by decide, by simp [hb]⟩
    · have hm2 : ¬("m.facebook.com" = u.host) := fun e => hm e.symm
      have hb2 : ¬("mbasic.facebook.com" = u.host) := fun e => hb e.symm
      refine ⟨[u.host, "m.facebook.com", "mbasic.facebook.com"], ?_, ?_, ?_, rfl⟩
      · simp [dedupKeepFirst, dedupKeepFirstAux, hm2, hb2]
      · simp [hm2, hb2]
      · simp [List.nodup_cons, hm, hb]

/-- Witness for `buildCandidateUrls_ordered_dedup` at a concrete URL already
on the mobile mirror. -/
theorem buildCandidateUrls_ordered_dedup_witness :
    ∃ hosts : List String,
      hosts = dedupKeepFirst ["m.facebook.com", "m.facebook.com", "mbasic.facebook.com"] ∧
      buildCandidateUrls "https://m.facebook.com/story.php?id=1" =
        some (hosts.map (fun hx => "https://" ++ hx ++ "/story.php?id=1")) ∧
      hosts.Nodup ∧ hosts.head? = some "m.facebook.com" :=
  buildCandidateUrls_ordered_dedup "https://m.facebook.com/story.php?id=1"
    ⟨"https", "m.facebook.com", "/story.php", "id=1", ""⟩ (by decide)

/-! ### HTML entity decoding (`decodeHtml`, src/unnamed/part_001:229-236) -/

/-- The apostrophe character (code 39). -/
def sqChar : Char := Char.ofNat 39

/-- The double-quote character (code 34). -/
def dqChar : Char := Char.ofNat 34

/-- Model of JS `str.replace(/pat/g, repl)` for a literal (non-empty)
pattern: scan left to right, replace each non-overlapping occurrence and
continue after it.  The `Nat` argument counts characters still to be skipped
because they belong to the occurrence just replaced. -/
def replaceAllSkip (pat repl : List Char) : Nat → List Char → List Char
  | _, [] => []
  | Nat.succ k, _ :: xs => replaceAllSkip pat repl k xs
  | 0, x :: xs =>
    if pat.isPrefixOf (x :: xs) then repl ++ replaceAllSkip pat repl (pat.length - 1) xs
    else x :: replaceAllSkip pat repl 0 xs

def jsReplaceAll (s pat repl : String) : String :=
  String.mk (replaceAllSkip pat.toList repl.toList 0 s.toList)

/-- `decodeHtml`: sequentially unescape `&amp; &lt; &gt; &quot; &#39;`. -/
def decodeHtml (s : String) : String :=
  jsReplaceAll (jsReplaceAll (jsReplaceAll (jsReplaceAll (jsReplaceAll s
    "&amp;" "&") "&lt;" "<") "&gt;" ">") "&quot;" (String.mk [dqChar]))
    (String.mk ['&', '#', '3', '9', ';']) (String.mk [sqChar])

/-! ### The `<meta .../>` pick regexes of `extractMeta`
(src/unnamed/part_001:196-208)

Each pick pattern has the shape
`<meta\s+ATTR=["']NAME["']\s+content=["']([^"']*)["'][^>]*>` with the `/i`
flag.  Every regex position is followed by a character class excluding the
greedy class's characters, so possessive (maximal-munch) matching is exact,
and `String.match` without `/g` returns the first (leftmost) match. -/

def isQuote (c : Char) : Bool := c == sqChar || c == dqChar

/-- Case-insensitive literal match, returning the rest of the input. -/
def matchLitCI : List Char → List Char → Option (List Char)
  | [], s => some s
  | _ :: _, [] => none
  | c :: cs, x :: xs => if lowerChar x == lowerChar c then matchLitCI cs xs else none

/-- `\s+` : at least one whitespace character, consumed greedily. -/
def matchWS1 : List Char → Option (List Char)
  | [] => none
  | x :: xs => if isWS x then some (xs.dropWhile isWS) else none

/-- `["']` : one quote character of either kind. -/
def matchQuote : List Char → Option (List Char)
  | [] => none
  | x :: xs => if isQuote x then some xs else none

/-- `([^"']*)["']` : capture the maximal run of non-quote characters, then
require a closing quote. -/
def captureToQuote (s : List Char) : Option (String × List Char) :=
  match s.drop (s.takeWhile (fun c => !(isQuote c))).length with
  | x :: xs =>
    if isQuote x then some (String.mk (s.takeWhile (fun c => !(isQuote c))), xs) else none
  | [] => none

/-- `[^>]*>` : skip to the next `>` (which must exist). -/
def skipToGt (s : List Char) : Bool :=
  match s.dropWhile (fun c => c != '>') with
  | '>' :: _ => true
  | _ => false

/-- Match one full meta-pick pattern at the current position, returning the
captured content value. -/
def matchMetaAt (attr nameLit : List Char) (s : List Char) : Option String :=
  (matchLitCI "<meta".toList s).bind (fun r1 =>
  (matchWS1 r1).bind (fun r2 =>
  (matchLitCI (attr ++ ['=']) r2).bind (fun r3 =>
  (matchQuote r3).bind (fun r4 =>
  (matchLitCI nameLit r4).bind (fun r5 =>
  (matchQuote r5).bind (fun r6 =>
  (matchWS1 r6).bind (fun r7 =>
  (matchLitCI "content=".toList r7).bind (fun r8 =>
  (matchQuote r8).bind (fun r9 =>
  (captureToQuote r9).bind (fun vr =>
  if skipToGt vr.2 then some vr.1 else none))))))))))

/-- First (leftmost) match of a meta-pick pattern; `""` when there is none
(the `pick` helper returns `''` for a failed match). -/
def rawPickMetaChars (attr nameLit : List Char) : List Char → String
  | [] => ""
  | x :: xs =>
    match matchMetaAt attr nameLit (x :: xs) with
    | some v => v
    | none => rawPickMetaChars attr nameLit xs

def rawPickMeta (attr nameLit html : String) : String :=
  rawPickMetaChars attr.toList nameLit.toList html.toList

/-- `pick`: first match's capture, entity-decoded (src/unnamed/part_001:197-199). -/
def pickMeta (attr nameLit html : String) : String :=
  decodeHtml (rawPickMeta attr nameLit html)

/-- `/<title>([^<]*)<\/title>/i` at one position. -/
def matchTitleAt (s : List Char) : Option String :=
  (matchLitCI "<title>".toList s).bind (fun r1 =>
    (matchLitCI "</title>".toList (r1.drop (r1.takeWhile (fun c => c != '<')).length)).map
      (fun _ => String.mk (r1.takeWhile (fun c => c != '<'))))

def rawExtractTitleChars : List Char → String
  | [] => ""
  | x :: xs =>
    match matchTitleAt (x :: xs) with
    | some v => v
    | none => rawExtractTitleChars xs

def rawExtractTitle (html : String) : String := rawExtractTitleChars html.toList

/-- `extractTitle` (src/unnamed/part_001:224-227). -/
def extractTitle (html : String) : String := decodeHtml (rawExtractTitle html)

def pickOgTitle (html : String) : String := pickMeta "property" "og:title" html
def pickOgDesc (html : String) : String := pickMeta "property" "og:description" html
def pickMetaDesc (html : String) : String := pickMeta "name" "description" html
def pickOgImage (html : String) : String := pickMeta "property" "og:image" html
def pickOgImageSecure (html : String) : String := pickMeta "property" "og:image:secure_url" html
def pickOgImageUrl (html : String) : String := pickMeta "property" "og:image:url" html
def pickOgSite (html : String) : String := pickMeta "property" "og:site_name" html
def pickTwDesc (html : String) : String := pickMeta "name" "twitter:description" html

/-- Executable substring (contiguous sublist) test, JS `String.includes`. -/
def listContainsSub (pat : List Char) : List Char → Bool
  | [] => pat.isEmpty
  | x :: xs => pat.isPrefixOf (x :: xs) || listContainsSub pat xs

/-! ### `unwrapSafeImage` (src/unnamed/part_001:238-251) -/

def unwrapSafeImage (imageUrl : String) : String :=
  match parseUrl imageUrl with
  | none => imageUrl
  | some u =>
    if listContainsSub "/safe_image.php".toList u.path.toList then
      match searchParamsGet u.query "url" with
      | none => imageUrl
      | some original =>
        if original = "" then imageUrl
        else
          match percentDecode original with
          | none => imageUrl
          | some dec =>
            match absHref dec with
            | some h => h
            | none => dec
    else imageUrl

/-! ### The `<img>` fallback scan of `extractImageFallback`
(src/unnamed/part_001:253-276)

The regex `/<img[^>]+(?:data-src|src)=["']([^"']+)["'][^>]*>/ig` is matched
with ordinary JS backtracking: the greedy `[^>]+` prefers the longest
attribute gap, i.e. the *last* position in the tag at which
`(data-src|src)=["']...` completes a match wins.  `exec` in a loop resumes
after the end of each match. -/

/-- `(?:data-src|src)=["']([^"']+)["'][^>]*>` at the current position;
returns the capture and the rest of the input after the match. -/
def tryAttrAt (s : List Char) : Option (String × List Char) :=
  let go : List Char → Option (String × List Char) := fun r0 =>
    (matchQuote r0).bind (fun r1 =>
      let v := r1.takeWhile (fun c => !(isQuote c))
      if v = [] then none
      else
        match r1.drop v.length with
        | x :: xs =>
          if isQuote x then
            match xs.dropWhile (fun c => c != '>') with
            | '>' :: r3 => some (String.mk v, r3)
            | _ => none
          else none
        | [] => none)
  match (matchLitCI "data-src=".toList s).bind go with
  | some res => some res
  | none => (matchLitCI "src=".toList s).bind go

/-- The greedy `[^>]+` gap: walk forward over non-`>` characters (at least
one) and keep the *latest* position at which the attribute pattern
completes. -/
def scanAttr : List Char → Option (String × List Char)
  | [] => none
  | x :: xs =>
    if x == '>' then none
    else
      match scanAttr xs with
      | some res => some res
      | none => tryAttrAt xs

/-- One whole-regex match attempt starting exactly at this position. -/
def matchImgAt (s : List Char) : Option (String × List Char) :=
  (matchLitCI "<img".toList s).bind scanAttr

/-- Leftmost match at or after this position. -/
def findImgFrom : List Char → Option (String × List Char)
  | [] => none
  | x :: xs =>
    match matchImgAt (x :: xs) with
    | some res => some res
    | none => findImgFrom xs

/-- All captures of the global regex, in order.  The fuel (the input length)
only guards termination: every match consumes at least one character. -/
def imgSrcsAux : Nat → List Char → List String
  | 0, _ => []
  | Nat.succ n, s =>
    match findImgFrom s with
    | none => []
    | some (v, rest) => v :: imgSrcsAux n rest

def imgSrcs (html : String) : List String := imgSrcsAux html.toList.length html.toList

/-- `/pixel|analytics|spacer/i` on the resolved URL. -/
def isTrackingName (abs : String) : Bool :=
  listContainsSub "pixel".toList (lowerChars abs.toList) ||
  listContainsSub "analytics".toList (lowerChars abs.toList) ||
  listContainsSub "spacer".toList (lowerChars abs.toList)

/-- `/\.svg($|\?)/i` on the resolved URL. -/
def isSvgUrl (abs : String) : Bool :=
  List.isSuffixOf ".svg".toList (lowerChars abs.toList) ||
  listContainsSub ".svg?".toList (lowerChars abs.toList)

def isDataUri (abs : String) : Bool := strStartsWith abs "data:"

/-- The candidate-collection loop (src/unnamed/part_001:255-268): resolve
each captured source against the base (skipping unresolvable ones), skip
data URIs, tracking-pixel/spacer names and SVGs. -/
def collectImgCandidates : List String → String → List String
  | [], _ => []
  | src :: rest, baseUrl =>
    match resolveUrl src baseUrl with
    | none => collectImgCandidates rest baseUrl
    | some abs =>
      if isDataUri abs then collectImgCandidates rest baseUrl
      else if isTrackingName abs then collectImgCandidates rest baseUrl
      else if isSvgUrl abs then collectImgCandidates rest baseUrl
      else abs :: collectImgCandidates rest baseUrl

/-- The post-collection selection loop (src/unnamed/part_001:269-272):
return the unwrap of the first candidate whose URL contains
`/safe_image.php`, if any. -/
def hasSafeImageSub (c : String) : Bool :=
  listContainsSub "/safe_image.php".toList c.toList

def safeImageScan : List String → Option String
  | [] => none
  | c :: cs =>
    if hasSafeImageSub c then some (unwrapSafeImage c)
    else safeImageScan cs

/-- `extractImageFallback` (src/unnamed/part_001:253-276). -/
def extractImageFallback (html baseUrl : String) : String :=
  match safeImageScan (collectImgCandidates (imgSrcs html) baseUrl) with
  | some r => r
  | none => (collectImgCandidates (imgSrcs html) baseUrl).headD ""

/-! ### `extractMeta` (src/unnamed/part_001:196-222) -/

structure MetaResult where
  name : String
  caption : String
  image : String
  ogTitle : String
  ogDesc : String
  rawTitle : String
deriving DecidableEq

/-- `og:image || og:image:secure_url || og:image:url`
(src/unnamed/part_001:210). -/
def metaImageRaw (html : String) : String :=
  jsOr2 (pickOgImage html) (jsOr2 (pickOgImageSecure html) (pickOgImageUrl html))

/-- The meta image resolved against the base (keeping it unchanged when
`new URL` throws) and proxy-unwrapped (src/unnamed/part_001:211-214). -/
def metaImageResolved (html baseUrl : String) : String :=
  unwrapSafeImage (match resolveUrl (metaImageRaw html) baseUrl with
    | some h => h
    | none => metaImageRaw html)

/-- The image chain of `extractMeta` (src/unnamed/part_001:210-217):
the resolved, unwrapped meta image when one of the three og:image variants
is present (and its processed form is non-empty), the `<img>` fallback
otherwise. -/
def extractMetaImage (html baseUrl : String) : String :=
  if (if metaImageRaw html = "" then "" else metaImageResolved html baseUrl) = ""
  then extractImageFallback html baseUrl
  else if metaImageRaw html = "" then "" else metaImageResolved html baseUrl

def extractMeta (html baseUrl : String) : MetaResult :=
  { name := jsOr2 (pickOgSite html) (jsOr2 (pickOgTitle html) (extractTitle html)),
    caption := jsOr2 (pickOgDesc html) (jsOr2 (pickTwDesc html) (pickMetaDesc html)),
    image := extractMetaImage html baseUrl,
    ogTitle := pickOgTitle html,
    ogDesc := pickOgDesc html,
    rawTitle := extractTitle html }

/-! ### C2 and C3: extraction priority rules -/

/-- Modelled from the claim: the first non-empty string in the list, default
empty. -/
def firstNonEmpty (l : List String) : String := ((l.find? (fun s => s != "")).getD "")

theorem firstNonEmpty_cons (a : String) (l : List String) :
    firstNonEmpty (a :: l) = if a = "" then firstNonEmpty l else a := by
  by_cases ha : a = ""
  · subst ha; simp [firstNonEmpty]
  · simp [firstNonEmpty, ha]

theorem jsOr2_chain (a b c : String) :
    jsOr2 a (jsOr2 b c) = firstNonEmpty [a, b, c] := by
  by_cases ha : a = "" <;> by_cases hb : b = "" <;> by_cases hc : c = "" <;>
    simp [jsOr2, firstNonEmpty_cons, ha, hb, hc, firstNonEmpty]

/-- **C2.** For every HTML string and base URL, the extracted `name` is the
first non-empty of (og:site_name meta, og:title meta, page title text) and
`caption` is the first non-empty of (og:description meta,
twitter:description meta, generic description meta); both default to the
empty string (they are total `String`s, never null), and every extracted
text field is the entity-decode (`&amp; &lt; &gt; &quot; &#39;`) of the raw
captured text. -/
theorem extractMeta_name_caption_priority (html baseUrl : String) :
    (extractMeta html baseUrl).name =
      firstNonEmpty [pickOgSite html, pickOgTitle html, extractTitle html] ∧
    (extractMeta html baseUrl).caption =
      firstNonEmpty [pickOgDesc html, pickTwDesc html, pickMetaDesc html] ∧
    pickOgSite html = decodeHtml (rawPickMeta "property" "og:site_name" html) ∧
    pickOgTitle html = decodeHtml (rawPickMeta "property" "og:title" html) ∧
    extractTitle html = decodeHtml (rawExtractTitle html) ∧
    pickOgDesc html = decodeHtml (rawPickMeta "property" "og:description" html) ∧
    pickTwDesc html = decodeHtml (rawPickMeta "name" "twitter:description" html) ∧
    pickMetaDesc html = decodeHtml (rawPickMeta "name" "description" html) := by
  refine ⟨?_, ?_, rfl, rfl, rfl, rfl, rfl, rfl⟩
  · show jsOr2 (pickOgSite html) (jsOr2 (pickOgTitle html) (extractTitle html)) = _
    rw [jsOr2_chain]
  · show jsOr2 (pickOgDesc html) (jsOr2 (pickTwDesc html) (pickMetaDesc html)) = _
    rw [jsOr2_chain]

/-- Modelled from the claim (amended): a fallback image candidate qualifies
when it is not a data URI, does not match the tracking-pixel/spacer naming
patterns, and is not an SVG. -/
def isQualifyingImage (abs : String) : Bool :=
  !(isDataUri abs) && !(isTrackingName abs) && !(isSvgUrl abs)

/-- Modelled from the claim (amended): the captured image sources that
resolve against the base and qualify, in document order. -/
def qualifyingImages (html baseUrl : String) : List String :=
  ((imgSrcs html).filterMap (fun src => resolveUrl src baseUrl)).filter isQualifyingImage

theorem collectImgCandidates_eq (l : List String) (b : String) :
    collectImgCandidates l b =
      (l.filterMap (fun src => resolveUrl src b)).filter isQualifyingImage := by
  induction l with
  | nil => rfl
  | cons s l ih =>
    cases hr : resolveUrl s b with
    | none => simp [collectImgCandidates, hr, ih, List.filterMap_cons]
    | some abs =>
      by_cases h1 : isDataUri abs
      · simp [collectImgCandidates, hr, ih, List.filterMap_cons, isQualifyingImage, h1]
      · by_cases h2 : isTrackingName abs
        · simp [collectImgCandidates, hr, ih, List.filterMap_cons, isQualifyingImage, h1, h2]
        · by_cases h3 : isSvgUrl abs
          · simp [collectImgCandidates, hr, ih, List.filterMap_cons, isQualifyingImage, h1, h2, h3]
          · simp [collectImgCandidates, hr, ih, List.filterMap_cons, isQualifyingImage, h1, h2, h3]

theorem safeImageScan_eq_find (l : List String) :
    safeImageScan l = (l.find? hasSafeImageSub).map unwrapSafeImage := by
  induction l with
  | nil => rfl
  | cons c cs ih =>
    by_cases h : hasSafeImageSub c = true <;> simp [safeImageScan, h, ih]

/-- **C3 (amended): corrected claim.**  The extracted `imageUrl` is the
first present of (og:image, og:image:secure_url, og:image:url), resolved
against the base and proxy-unwrapped; when no meta image exists it comes
from the `<img>` scan (which captures, per tag, the last
`src`/`data-src`-attribute occurrence), keeping candidates whose resolved
absolute URL is not a data URI, does not match tracking-pixel/spacer naming
patterns, and is not an SVG; among the qualifying candidates, the first one
containing the proxy path `/safe_image.php` is returned unwrapped in
preference to earlier qualifying images, and only when no candidate is
proxy-wrapped does the first qualifying image win. -/
theorem extractMeta_image_rule (html baseUrl : String) :
    (metaImageRaw html ≠ "" → metaImageResolved html baseUrl ≠ "" →
      (extractMeta html baseUrl).image = metaImageResolved html baseUrl) ∧
    (metaImageRaw html = "" →
      (extractMeta html baseUrl).image = extractImageFallback html baseUrl) ∧
    extractImageFallback html baseUrl =
      (((qualifyingImages html baseUrl).find? hasSafeImageSub).map
        unwrapSafeImage).getD ((qualifyingImages html baseUrl).headD "") := by
  refine ⟨?_, ?_, ?_⟩
  · intro h1 h2
    have : (extractMeta html baseUrl).image = extractMetaImage html baseUrl := rfl
    rw [this, extractMetaImage, if_neg h1, if_neg h2]
  · intro h0
    have : (extractMeta html baseUrl).image = extractMetaImage html baseUrl := rfl
    rw [this, extractMetaImage, if_pos h0]
    simp
  · have : extractImageFallback html baseUrl =
        (match safeImageScan (collectImgCandidates (imgSrcs html) baseUrl) with
          | some r => r
          | none => (collectImgCandidates (imgSrcs html) baseUrl).headD "") := rfl
    rw [this, collectImgCandidates_eq, safeImageScan_eq_find]
    cases hf : ((imgSrcs html).filterMap (fun src => resolveUrl src baseUrl)).filter
        isQualifyingImage |>.find? hasSafeImageSub with
    | none => simp [qualifyingImages, hf]
    | some c => simp [qualifyingImages, hf]

/-- Witness for `extractMeta_image_rule` at a concrete page with no meta
image. -/
theorem extractMeta_image_rule_witness :
    (extractMeta "x" "https://e.example/").image =
      extractImageFallback "x" "https://e.example/" :=
  (extractMeta_image_rule "x" "https://e.example/").2.1 (by decide)

/-- **C3 counterexample.** A page with no meta image and two qualifying
`<img>` candidates: the first qualifying image is a plain JPEG (unaffected
by proxy-unwrap), yet the extractor returns the unwrapped form of the
*second* candidate because it contains `/safe_image.php` — so "the first
qualifying image wins" is false.  Additionally, in a tag carrying both
attributes (`data-src` before `src`) the plain `src` value is captured, not
the data-deferred one. -/
theorem extractImageFallback_counterexample :
    qualifyingImages
        "<img src=\"https://a.example/one.jpg\"><img src=\"https://p.example/safe_image.php?url=https%3A%2F%2Fb.example%2Freal.jpg\">"
        "https://mbasic.facebook.com/post" =
      ["https://a.example/one.jpg",
       "https://p.example/safe_image.php?url=https%3A%2F%2Fb.example%2Freal.jpg"] ∧
    unwrapSafeImage "https://a.example/one.jpg" = "https://a.example/one.jpg" ∧
    (extractMeta
        "<img src=\"https://a.example/one.jpg\"><img src=\"https://p.example/safe_image.php?url=https%3A%2F%2Fb.example%2Freal.jpg\">"
        "https://mbasic.facebook.com/post").image = "https://b.example/real.jpg" ∧
    imgSrcs "<img data-src=\"http://b/b.jpg\" src=\"http://a/a.jpg\">" = ["http://a/a.jpg"] := by
  refine ⟨by decide, by decide, by decide, by decide⟩

/-! ### Cookie parsing (`parseCookies` / `sanitizeCookiesArray`,
src/unnamed/part_000:172-216)

A cookie-like object supplied by the caller is modelled field-by-field:
`none` is an absent field, `some ""` an explicitly empty one (both falsy in
`c.field || default`).  An array element on which reading `.name` throws
(`null`/`undefined`) is `CookieElem.bad`; JSON primitives behave like an
object with every field absent. -/

structure CookieLike where
  name : Option String := none
  value : Option String := none
  domain : Option String := none
  path : Option String := none
  httpOnly : Bool := false
  secure : Option Bool := none
  sameSite : Option String := none
  expires : Option Int := none
deriving DecidableEq

inductive CookieElem
  | bad
  | obj (c : CookieLike)
deriving DecidableEq

/-- The normalized cookie record.  `sameSite` is optional because the
header-string branch of `parseCookies` builds records without that field. -/
structure CookieRecord where
  name : String
  value : String
  domain : String
  path : String
  httpOnly : Bool
  secure : Bool
  sameSite : Option String
  expires : Option Int
deriving DecidableEq

/-- One step of `sanitizeCookiesArray`'s `map` (src/unnamed/part_000:200-214):
outer `none` models the map callback throwing (a `bad` element), inner
`none` a record dropped for an empty name. -/
def sanitizeElem : CookieElem → Option (Option CookieRecord)
  | CookieElem.bad => none
  | CookieElem.obj c =>
    if jsTrim (jsOrS c.name "") = "" then some none
    else some (some
      { name := jsTrim (jsOrS c.name ""),
        value := jsTrim (jsOrS c.value ""),
        domain := jsOrS c.domain ".facebook.com",
        path := jsOrS c.path "/",
        httpOnly := c.httpOnly,
        secure := c.secure.getD true,
        sameSite := some (jsOrS c.sameSite "Lax"),
        expires := c.expires })

/-- `sanitizeCookiesArray` (src/unnamed/part_000:198-216): `none` models an
exception escaping the `map` (caught by `parseCookies`, which then returns
`[]`). -/
def sanitizeCookiesArray : List CookieElem → Option (List CookieRecord)
  | [] => some []
  | e :: es =>
    match sanitizeElem e with
    | none => none
    | some r =>
      (sanitizeCookiesArray es).map (fun rest =>
        match r with
        | some r0 => r0 :: rest
        | none => rest)

/-- The header-string branch of `parseCookies`
(src/unnamed/part_000:183-192): split on `;`, trim, drop empty parts, drop
parts without `=`, split each at the first `=`. -/
def headerParse (t : String) : List CookieRecord :=
  (((splitOnChar ';' t.toList).map (fun cs => jsTrimChars cs)).filter
      (fun p => p ≠ [])).filterMap (fun p =>
    if p.contains '=' then
      some { name := jsTrim (String.mk (p.takeWhile (fun c => c != '='))),
             value := jsTrim (String.mk ((p.drop (p.takeWhile (fun c => c != '=')).length).drop 1)),
             domain := ".facebook.com", path := "/", httpOnly := false,
             secure := true, sameSite := none, expires := none }
    else none)

/-- The possible shapes of the `parseCookies` input value.  `strInput`
carries the outcome of `JSON.parse` on the string (consulted only when the
trimmed string starts with `[`; `none` models the parse throwing), since the
JSON parser is a host builtin. -/
inductive CookieInput
  | nullish
  | arr (xs : List CookieElem)
  | strInput (s : String) (jsonParsed : Option (List CookieElem))
  | other
deriving DecidableEq

/-- `parseCookies` (src/unnamed/part_000:172-196). -/
def parseCookies : CookieInput → List CookieRecord
  | CookieInput.nullish => []
  | CookieInput.arr xs => (sanitizeCookiesArray xs).getD []
  | CookieInput.strInput s jsonParsed =>
    if s = "" then []
    else if jsTrim s = "" then []
    else if strStartsWith (jsTrim s) "[" then
      match jsonParsed with
      | none => []
      | some xs => (sanitizeCookiesArray xs).getD []
    else headerParse (jsTrim s)
  | CookieInput.other => []

/-- The object literal a produced `CookieRecord` denotes when fed back to
`parseCookies` (absent `sameSite` stays an absent field). -/
def recordToElem (r : CookieRecord) : CookieElem :=
  CookieElem.obj
    { name := some r.name, value := some r.value, domain := some r.domain,
      path := some r.path, httpOnly := r.httpOnly, secure := some r.secure,
      sameSite := r.sameSite, expires := r.expires }

/-! ### C5 and C6: cookie-parser normalization -/

theorem trimLeftWS_idem (l : List Char) : trimLeftWS (trimLeftWS l) = trimLeftWS l := by
  induction l with
  | nil => rfl
  | cons a l ih =>
    by_cases h : isWS a = true
    · simp only [trimLeftWS, List.dropWhile_cons, h, if_true]
      exact ih
    · simp only [trimLeftWS, List.dropWhile_cons, h, if_false]
      simp [h]

theorem trimRightWS_idem (l : List Char) : trimRightWS (trimRightWS l) = trimRightWS l := by
  induction l with
  | nil => rfl
  | cons a l ih =>
    by_cases h : trimRightWS l = [] ∧ isWS a = true
    · have e : trimRightWS (a :: l) = [] := by
        simp only [trimRightWS]; exact if_pos h
      rw [e]; rfl
    · have e : trimRightWS (a :: l) = a :: trimRightWS l := by
        simp only [trimRightWS]; exact if_neg h
      rw [e]
      simp only [trimRightWS, ih]
      exact if_neg h

theorem length_dropWhile_ws_le (l : List Char) : (l.dropWhile isWS).length ≤ l.length := by
  induction l with
  | nil => simp
  | cons a l ih =>
    by_cases h : isWS a = true
    · simp only [List.dropWhile_cons, h, if_true]
      exact Nat.le_succ_of_le ih
    · simp [List.dropWhile_cons, h]

theorem trimLeft_head_not_ws (a : Char) (ys : List Char)
    (h : trimLeftWS (a :: ys) = a :: ys) : isWS a = false := by
  by_cases hw : isWS a = true
  · exfalso
    have e : trimLeftWS (a :: ys) = trimLeftWS ys := by
      simp only [trimLeftWS, List.dropWhile_cons, hw, if_true]
    rw [e] at h
    have hlen : (trimLeftWS ys).length ≤ ys.length := length_dropWhile_ws_le ys
    rw [h] at hlen
    simp at hlen
  · simpa using hw

theorem trimLeft_trimRight (y : List Char) (hy : trimLeftWS y = y) :
    trimLeftWS (trimRightWS y) = trimRightWS y := by
  cases y with
  | nil => rfl
  | cons a ys =>
    have ha : isWS a = false := trimLeft_head_not_ws a ys hy
    have h : ¬(trimRightWS ys = [] ∧ isWS a = true) := by
      rintro ⟨-, hx⟩; rw [ha] at hx; exact Bool.false_ne_true hx
    have e : trimRightWS (a :: ys) = a :: trimRightWS ys := by
      simp only [trimRightWS]; exact if_neg h
    rw [e]
    simp [trimLeftWS, List.dropWhile_cons, ha]

theorem jsTrimChars_idem (l : List Char) : jsTrimChars (jsTrimChars l) = jsTrimChars l := by
  unfold jsTrimChars
  rw [trimLeft_trimRight (trimLeftWS l) (trimLeftWS_idem l), trimRightWS_idem]

theorem jsTrim_idem (s : String) : jsTrim (jsTrim s) = jsTrim s := by
  unfold jsTrim
  rw [show (String.mk (jsTrimChars s.toList)).toList = jsTrimChars s.toList from rfl,
    jsTrimChars_idem]

theorem sanitizeCookiesArray_bad {xs : List CookieElem} (h : CookieElem.bad ∈ xs) :
    sanitizeCookiesArray xs = none := by
  induction xs with
  | nil => cases h
  | cons e es ih =>
    cases e with
    | bad => rfl
    | obj c =>
      rcases List.mem_cons.mp h with h1 | h2
      · cases h1
      · by_cases hname : jsTrim (jsOrS c.name "") = ""
        · simp [sanitizeCookiesArray, sanitizeElem, hname, ih h2]
        · simp [sanitizeCookiesArray, sanitizeElem, hname, ih h2]

theorem sanitize_mem {xs : List CookieElem} {l : List CookieRecord} {r : CookieRecord}
    (h : sanitizeCookiesArray xs = some l) (hr : r ∈ l) :
    ∃ c : CookieLike, jsTrim (jsOrS c.name "") ≠ "" ∧
      r = { name := jsTrim (jsOrS c.name ""), value := jsTrim (jsOrS c.value ""),
            domain := jsOrS c.domain ".facebook.com", path := jsOrS c.path "/",
            httpOnly := c.httpOnly, secure := c.secure.getD true,
            sameSite := some (jsOrS c.sameSite "Lax"), expires := c.expires } := by
  induction xs generalizing l with
  | nil =>
    simp only [sanitizeCookiesArray, Option.some.injEq] at h
    subst h; cases hr
  | cons e es ih =>
    cases e with
    | bad => simp [sanitizeCookiesArray, sanitizeElem] at h
    | obj c =>
      by_cases hname : jsTrim (jsOrS c.name "") = ""
      · simp only [sanitizeCookiesArray, sanitizeElem, if_pos hname] at h
        cases hs : sanitizeCookiesArray es with
        | none => rw [hs] at h; cases h
        | some rest =>
          rw [hs] at h
          simp only [Option.map_some', Option.some.injEq] at h
          subst h
          exact ih hs hr
      · simp only [sanitizeCookiesArray, sanitizeElem, if_neg hname] at h
        cases hs : sanitizeCookiesArray es with
        | none => rw [hs] at h; cases h
        | some rest =>
          rw [hs] at h
          simp only [Option.map_some', Option.some.injEq] at h
          subst h
          rcases List.mem_cons.mp hr with h1 | h2
          · exact ⟨c, hname, h1⟩
          · exact ih hs h2

theorem headerParse_mem {t : String} {r : CookieRecord} (h : r ∈ headerParse t) :
    r.domain = ".facebook.com" ∧ r.path = "/" ∧ r.httpOnly = false ∧ r.secure = true ∧
    r.sameSite = none ∧ r.expires = none ∧
    jsTrim r.name = r.name ∧ jsTrim r.value = r.value := by
  unfold headerParse at h
  rcases List.mem_filterMap.mp h with ⟨p, hp, hf⟩
  by_cases hc : p.contains '=' = true
  · rw [if_pos hc] at hf
    injection hf with hf
    subst hf
    exact ⟨rfl, rfl, rfl, rfl, rfl, rfl, jsTrim_idem _, jsTrim_idem _⟩
  · rw [if_neg hc] at hf
    cases hf

theorem sanitize_getD_mem {xs : List CookieElem} {r : CookieRecord}
    (h : r ∈ (sanitizeCookiesArray xs).getD []) :
    jsTrim r.name = r.name ∧ jsTrim r.value = r.value ∧
    (r.sameSite.isSome → r.name ≠ "") := by
  cases hs : sanitizeCookiesArray xs with
  | none => rw [hs] at h; cases h
  | some l =>
    rw [hs] at h
    simp only [Option.getD_some] at h
    obtain ⟨c, hn, hr⟩ := sanitize_mem hs h
    subst hr
    exact ⟨jsTrim_idem _, jsTrim_idem _, fun _ => by simpa using hn⟩

theorem parseCookies_mem {inp : CookieInput} {r : CookieRecord}
    (h : r ∈ parseCookies inp) :
    jsTrim r.name = r.name ∧ jsTrim r.value = r.value ∧
    (r.sameSite.isSome → r.name ≠ "") := by
  cases inp with
  | nullish => cases h
  | other => cases h
  | arr xs => exact sanitize_getD_mem h
  | strInput s jp =>
    simp only [parseCookies] at h
    by_cases h1 : s = ""
    · rw [if_pos h1] at h; cases h
    · rw [if_neg h1] at h
      by_cases h2 : jsTrim s = ""
      · rw [if_pos h2] at h; cases h
      · rw [if_neg h2] at h
        by_cases h3 : strStartsWith (jsTrim s) "[" = true
        · rw [if_pos h3] at h
          cases jp with
          | none => cases h
          | some xs => exact sanitize_getD_mem h
        · rw [if_neg h3] at h
          have hm := headerParse_mem h
          exact ⟨hm.2.2.2.2.2.2.1, hm.2.2.2.2.2.2.2,
            fun hss => by rw [hm.2.2.2.2.1] at hss; cases hss⟩

/-- **C5 (amended): corrected claim.**  The Cookie Spec Parser never raises
(it is a total function); malformed input — a falsy value, a non-array
non-string value, a JSON-like string whose parse fails, or an array
containing an element on which field access throws — yields the empty list.
Records coming through `sanitizeCookiesArray` (array and JSON-string
inputs) are normalized by trimming name and value, dropped when the name is
empty after trimming, and given the defaults domain `.facebook.com`, path
`/`, secure `true` and sameSite `Lax` unless explicitly overridden.  Records
from the header-string branch get the domain/path/secure defaults with
trimmed name and value, but carry no sameSite field and are *not* dropped
when their name is empty. -/
theorem parseCookies_normalization :
    (parseCookies CookieInput.nullish = []) ∧
    (parseCookies CookieInput.other = []) ∧
    (∀ s : String, strStartsWith (jsTrim s) "[" = true →
      parseCookies (CookieInput.strInput s none) = []) ∧
    (∀ xs : List CookieElem, CookieElem.bad ∈ xs →
      parseCookies (CookieInput.arr xs) = []) ∧
    (∀ c : CookieLike, jsTrim (jsOrS c.name "") = "" →
      sanitizeElem (CookieElem.obj c) = some none) ∧
    (∀ c : CookieLike, jsTrim (jsOrS c.name "") ≠ "" →
      sanitizeElem (CookieElem.obj c) = some (some
        { name := jsTrim (jsOrS c.name ""), value := jsTrim (jsOrS c.value ""),
          domain := jsOrS c.domain ".facebook.com", path := jsOrS c.path "/",
          httpOnly := c.httpOnly, secure := c.secure.getD true,
          sameSite := some (jsOrS c.sameSite "Lax"), expires := c.expires })) ∧
    (∀ (t : String) (r : CookieRecord), r ∈ headerParse t →
      r.domain = ".facebook.com" ∧ r.path = "/" ∧ r.httpOnly = false ∧
      r.secure = true ∧ r.sameSite = none) ∧
    (∀ (inp : CookieInput) (r : CookieRecord), r ∈ parseCookies inp →
      jsTrim r.name = r.name ∧ jsTrim r.value = r.value ∧
      (r.sameSite.isSome → r.name ≠ "")) := by
  refine ⟨rfl, rfl, ?_, ?_, ?_, ?_, ?_, ?_⟩
  · intro s hs3
    simp only [parseCookies]
    by_cases h1 : s = ""
    · rw [if_pos h1]
    · rw [if_neg h1]
      by_cases h2 : jsTrim s = ""
      · rw [if_pos h2]
      · rw [if_neg h2, if_pos hs3]
  · intro xs hbad
    simp only [parseCookies, sanitizeCookiesArray_bad hbad, Option.getD_none]
  · intro c hname
    simp [sanitizeElem, hname]
  · intro c hname
    simp [sanitizeElem, hname]
  · intro t r h
    have hm := headerParse_mem h
    exact ⟨hm.1, hm.2.1, hm.2.2.1, hm.2.2.2.1, hm.2.2.2.2.1⟩
  · intro inp r h
    exact parseCookies_mem h

/-- Witness for `parseCookies_normalization` at concrete inputs: a throwing
array element yields `[]`, and a record with padded name/value is trimmed
and given all defaults. -/
theorem parseCookies_normalization_witness :
    parseCookies (CookieInput.arr [CookieElem.bad]) = [] ∧
    sanitizeElem (CookieElem.obj { name := some " a ", value := some " b " }) =
      some (some
        { name := "a", value := "b", domain := ".facebook.com", path := "/",
          httpOnly := false, secure := true, sameSite := some "Lax", expires := none }) := by
  constructor
  · exact parseCookies_normalization.2.2.2.1 [CookieElem.bad] (by decide)
  · rw [parseCookies_normalization.2.2.2.2.2.1
      { name := some " a ", value := some " b " } (by decide)]
    decide

/-- **C5 counterexample.** The header-string input `"=v"` produces a record
whose name is empty after trimming (the claim says such records are
dropped) and which carries no sameSite field at all (the claim says sameSite
defaults to `Lax`). -/
theorem parseCookies_header_counterexample :
    parseCookies (CookieInput.strInput "=v" none) =
      [{ name := "", value := "v", domain := ".facebook.com", path := "/",
         httpOnly := false, secure := true, sameSite := none, expires := none }] := by
  decide

/-- **C6 (amended): corrected claim.**  Cookie parsing is format-agnostic:
the array `[{name:"a",value:"b"}]`, its JSON-string encoding, and the header
string `"a=b"` all normalize to a single record with name `"a"` and value
`"b"`.  Re-parsing the parser's own output is stable for array/JSON-derived
records; a header-derived record is changed by re-parsing only in that it
gains the default `sameSite = "Lax"` (after which a further re-parse is
stable). -/
theorem cookieParsing_format_agnostic :
    parseCookies (CookieInput.arr [CookieElem.obj { name := some "a", value := some "b" }]) =
      [{ name := "a", value := "b", domain := ".facebook.com", path := "/",
         httpOnly := false, secure := true, sameSite := some "Lax", expires := none }] ∧
    parseCookies (CookieInput.strInput "[\x7b\"name\":\"a\",\"value\":\"b\"\x7d]"
        (some [CookieElem.obj { name := some "a", value := some "b" }])) =
      [{ name := "a", value := "b", domain := ".facebook.com", path := "/",
         httpOnly := false, secure := true, sameSite := some "Lax", expires := none }] ∧
    parseCookies (CookieInput.strInput "a=b" none) =
      [{ name := "a", value := "b", domain := ".facebook.com", path := "/",
         httpOnly := false, secure := true, sameSite := none, expires := none }] ∧
    parseCookies (CookieInput.arr
        ((parseCookies (CookieInput.arr
          [CookieElem.obj { name := some "a", value := some "b" }])).map recordToElem)) =
      parseCookies (CookieInput.arr [CookieElem.obj { name := some "a", value := some "b" }]) ∧
    parseCookies (CookieInput.arr
        ((parseCookies (CookieInput.strInput "a=b" none)).map recordToElem)) =
      [{ name := "a", value := "b", domain := ".facebook.com", path := "/",
         httpOnly := false, secure := true, sameSite := some "Lax", expires := none }] ∧
    parseCookies (CookieInput.arr
        ((parseCookies (CookieInput.arr
          ((parseCookies (CookieInput.strInput "a=b" none)).map recordToElem))).map
            recordToElem)) =
      parseCookies (CookieInput.arr
        ((parseCookies (CookieInput.strInput "a=b" none)).map recordToElem)) := by
  refine ⟨by decide, by decide, by decide, by decide, by decide, by decide⟩

/-- **C6 counterexample.** Parsing the parser's own output is not literally
idempotent: re-parsing the record produced for the header string `"a=b"`
yields a different record set (the re-parsed record gains
`sameSite = "Lax"`, which the original lacks). -/
theorem cookieParsing_reparse_counterexample :
    parseCookies (CookieInput.arr
        ((parseCookies (CookieInput.strInput "a=b" none)).map recordToElem)) ≠
      parseCookies (CookieInput.strInput "a=b" none) := by
  decide

/-! ### C7 and C10: `normalizeFacebookUrl` and the screenshot-post URL stage
(src/unnamed/part_000:29-41 and 149-161) -/

/-- `hostname.replace(/^www\./, '')`. -/
def stripWww (h : String) : String :=
  if strStartsWith h "www." then String.mk (h.toList.drop 4) else h

/-- `/facebook\.com$/i.test(hostname)`: an unanchored, case-insensitive
suffix test (any hostname merely *ending* in `facebook.com` passes). -/
def endsWithFacebookCom (h : String) : Bool :=
  List.isSuffixOf "facebook.com".toList (lowerChars h.toList)

/-- `normalizeFacebookUrl` (src/unnamed/part_000:149-161): parse failure
returns the input unchanged; a matching host is rewritten to
`mbasic.facebook.com` and the URL re-serialized. -/
def normalizeFacebookUrl (input : String) : String :=
  match parseUrl input with
  | none => input
  | some u =>
    if endsWithFacebookCom u.host || endsWithFacebookCom (stripWww u.host) then
      JsUrl.href { u with host := "mbasic.facebook.com" }
    else input

/-- The parsed request body of screenshot-post, as far as the URL stage
reads it. -/
structure ScreenshotBody where
  url : Option String
deriving DecidableEq

/-- The outcome of `JSON.parse(event.body)`: absent body (`{}`), a parsed
object, or a parse exception. -/
inductive BodyParse
  | noBody
  | parsed (b : ScreenshotBody)
  | malformed
deriving DecidableEq

/-- The URL-validation stage of the screenshot-post handler
(src/unnamed/part_000:29-41): `String(body.url || '').trim()`, rejection of
an empty url (or an unparsable body) with the invalid-request response, then
`normalizeFacebookUrl`. -/
def screenshotValidateUrl : BodyParse → Except String String
  | BodyParse.malformed => Except.error "invalid-request"
  | BodyParse.noBody => Except.error "invalid-request"
  | BodyParse.parsed b =>
    if jsTrim (jsOrS b.url "") = "" then Except.error "invalid-request"
    else Except.ok (normalizeFacebookUrl (jsTrim (jsOrS b.url "")))

theorem endsWithFacebookCom_stripWww {h : String}
    (hs : endsWithFacebookCom (stripWww h) = true) : endsWithFacebookCom h = true := by
  unfold stripWww at hs
  by_cases hw : strStartsWith h "www." = true
  · rw [if_pos hw] at hs
    unfold endsWithFacebookCom at hs ⊢
    rw [List.isSuffixOf_iff_suffix] at hs ⊢
    have hdrop : lowerChars ((String.mk (h.toList.drop 4)).toList) =
        (lowerChars h.toList).drop 4 := by
      show lowerChars (h.toList.drop 4) = (lowerChars h.toList).drop 4
      simp [lowerChars, List.map_drop]
    rw [hdrop] at hs
    exact hs.trans (List.drop_suffix 4 (lowerChars h.toList))
  · rwa [if_neg hw] at hs

theorem normalizeFacebookUrl_rewrite (s : String) (u : JsUrl)
    (h : parseUrl s = some u) (hfb : endsWithFacebookCom u.host = true) :
    normalizeFacebookUrl s = JsUrl.href { u with host := "mbasic.facebook.com" } := by
  unfold normalizeFacebookUrl
  rw [h]
  simp [hfb]

theorem normalizeFacebookUrl_other (s : String) (u : JsUrl)
    (h : parseUrl s = some u) (hfb : endsWithFacebookCom u.host = false) :
    normalizeFacebookUrl s = s := by
  unfold normalizeFacebookUrl
  rw [h]
  have h2 : endsWithFacebookCom (stripWww u.host) = false := by
    by_cases hx : endsWithFacebookCom (stripWww u.host) = true
    · rw [endsWithFacebookCom_stripWww hx] at hfb; cases hfb
    · simpa using hx
  simp [hfb, h2]

/-- **C7 (amended): corrected claim.**  The URL stage of the render pipeline
fails with the invalid-input error exactly when the request body is
unparsable, absent, or its `url` is missing/empty after trimming; an
unparsable URL is *not* rejected — the normalizer passes it through
unchanged and the stage succeeds.  When the URL parses and its hostname ends
(case-insensitively) in `facebook.com`, the hostname is rewritten to
`mbasic.facebook.com` in a single deterministic rewrite; other hosts are
left unchanged. -/
theorem screenshotUrlStage_rule :
    (screenshotValidateUrl BodyParse.malformed = Except.error "invalid-request") ∧
    (screenshotValidateUrl BodyParse.noBody = Except.error "invalid-request") ∧
    (∀ b : ScreenshotBody,
      screenshotValidateUrl (BodyParse.parsed b) = Except.error "invalid-request" ↔
        jsTrim (jsOrS b.url "") = "") ∧
    (∀ s : String, parseUrl s = none → normalizeFacebookUrl s = s) ∧
    (∀ (s : String) (u : JsUrl), parseUrl s = some u →
      endsWithFacebookCom u.host = true →
      normalizeFacebookUrl s = JsUrl.href { u with host := "mbasic.facebook.com" }) ∧
    (∀ (s : String) (u : JsUrl), parseUrl s = some u →
      endsWithFacebookCom u.host = false →
      normalizeFacebookUrl s = s) := by
  refine ⟨rfl, rfl, ?_, ?_, ?_, ?_⟩
  · intro b
    constructor
    · intro h
      by_cases hu : jsTrim (jsOrS b.url "") = ""
      · exact hu
      · simp only [screenshotValidateUrl, if_neg hu] at h
        cases h
    · intro hu
      simp [screenshotValidateUrl, hu]
  · intro s h
    unfold normalizeFacebookUrl
    rw [h]
  · exact normalizeFacebookUrl_rewrite
  · exact normalizeFacebookUrl_other

/-- Witness for `screenshotUrlStage_rule`: a www.facebook.com post URL is
rewritten to the mbasic mirror. -/
theorem screenshotUrlStage_witness :
    normalizeFacebookUrl "https://www.facebook.com/page/posts/1" =
      "https://mbasic.facebook.com/page/posts/1" := by
  have h := screenshotUrlStage_rule.2.2.2.2.1 "https://www.facebook.com/page/posts/1"
    ⟨"https", "www.facebook.com", "/page/posts/1", "", ""⟩ (by decide) (by decide)
  exact h.trans (by decide)

/-- **C7 counterexample.** An unparsable URL is not rejected with the
invalid-input error: the URL stage of the handler returns it unchanged as a
success, and only a missing/empty url (or unparsable body) produces the
invalid-input error. -/
theorem screenshotUrlStage_counterexample :
    parseUrl "not a url" = none ∧
    screenshotValidateUrl (BodyParse.parsed { url := some "not a url" }) =
      Except.ok "not a url" :=
  ⟨by decide, rfl⟩

/-- **C10.** For every URL whose parsed hostname merely ends with the string
`facebook.com` — including unrelated domains such as `notfacebook.com` —
`normalizeFacebookUrl` rewrites the hostname to `mbasic.facebook.com`,
because the domain test is an unanchored case-insensitive suffix match, not
an exact-domain check. -/
theorem normalizeFacebookUrl_suffix_match (s : String) (u : JsUrl)
    (h : parseUrl s = some u)
    (hsuf : List.isSuffixOf "facebook.com".toList (lowerChars u.host.toList) = true) :
    normalizeFacebookUrl s = JsUrl.href { u with host := "mbasic.facebook.com" } :=
  normalizeFacebookUrl_rewrite s u h hsuf

/-- Witness for `normalizeFacebookUrl_suffix_match` at the unrelated domain
`notfacebook.com`. -/
theorem normalizeFacebookUrl_suffix_match_witness :
    normalizeFacebookUrl "https://notfacebook.com/p" = "https://mbasic.facebook.com/p" := by
  have h := normalizeFacebookUrl_suffix_match "https://notfacebook.com/p"
    ⟨"https", "notfacebook.com", "/p", "", ""⟩ (by decide) (by decide)
  exact h.trans (by decide)

/-! ### C8: the region-detection and clip computation of screenshot-post
(src/unnamed/part_000:118-130)

The browser interaction is modelled by its observable outcome: the selector
query either throws, returns no element, or returns an element whose
`boundingBox()` is `null` or a box.  Pixel coordinates are modelled as
integers (the control flow and arithmetic of the clip computation do not
depend on fractional parts). -/

structure Box where
  x : Int
  y : Int
  width : Int
  height : Int
deriving DecidableEq

structure RegionClip where
  x : Int
  y : Int
  width : Int
  height : Int
deriving DecidableEq

inductive Detection
  | throws
  | noElement
  | element (box : Option Box)
deriving DecidableEq

/-- The clip computation (src/unnamed/part_000:119-128): `clip` stays `null`
when the query throws, finds nothing, or the box is null or has non-positive
width or height; otherwise it is the box with an 8px margin, the top-left
corner clamped at 0 while width and height always grow by 16. -/
def computeClip : Detection → Option RegionClip
  | Detection.throws => none
  | Detection.noElement => none
  | Detection.element none => none
  | Detection.element (some b) =>
    if 0 < b.width ∧ 0 < b.height then
      some { x := max 0 (b.x - 8), y := max 0 (b.y - 8),
             width := b.width + 16, height := b.height + 16 }
    else none

structure ScreenshotArgs where
  fullPage : Bool
  clip : Option RegionClip
deriving DecidableEq

/-- The screenshot call's arguments (src/unnamed/part_000:130):
`fullPage: !clip, clip: clip || undefined`. -/
def screenshotArgsFor (d : Detection) : ScreenshotArgs :=
  { fullPage := (computeClip d).isNone, clip := computeClip d }

/-- Modelled from the claim: the bounding box expanded by a fixed 8px margin
on all sides. -/
def expandBy8 (b : Box) : RegionClip :=
  { x := b.x - 8, y := b.y - 8, width := b.width + 16, height := b.height + 16 }

/-- **C8 (amended): corrected claim.**  When the detected element's bounding
box has positive width and height, the clip is the box padded by 8px with
its top-left corner clamped to non-negative coordinates (so it equals the
exact 8px expansion whenever the box lies at least 8px from the page
origin); when the query throws, matches nothing, or the box is absent or has
non-positive width or height, the clip is absent and the capture falls back
to the full rendered page — detection failure never prevents the screenshot
call. -/
theorem computeClip_rule (d : Detection) :
    (∀ b : Box, d = Detection.element (some b) → 0 < b.width → 0 < b.height →
      computeClip d = some { x := max 0 (b.x - 8), y := max 0 (b.y - 8),
                             width := b.width + 16, height := b.height + 16 } ∧
      (8 ≤ b.x → 8 ≤ b.y → computeClip d = some (expandBy8 b))) ∧
    ((d = Detection.throws ∨ d = Detection.noElement ∨ d = Detection.element none ∨
      (∃ b : Box, d = Detection.element (some b) ∧ (b.width ≤ 0 ∨ b.height ≤ 0))) →
      computeClip d = none) ∧
    (screenshotArgsFor d).fullPage = (computeClip d).isNone ∧
    (screenshotArgsFor d).clip = computeClip d := by
  refine ⟨?_, ?_, rfl, rfl⟩
  · intro b hd hw hh
    subst hd
    constructor
    · simp [computeClip, hw, hh]
    · intro hx hy
      have ex : max 0 (b.x - 8) = b.x - 8 := by omega
      have ey : max 0 (b.y - 8) = b.y - 8 := by omega
      simp [computeClip, hw, hh, expandBy8, ex, ey]
  · rintro (rfl | rfl | rfl | ⟨b, rfl, hb⟩)
    · rfl
    · rfl
    · rfl
    · have : ¬(0 < b.width ∧ 0 < b.height) := by omega
      simp [computeClip, this]

/-- Witness for `computeClip_rule`: a 10×10 box at (20, 30) gives the exact
8px-expanded clip; a throwing detection gives a full-page capture. -/
theorem computeClip_rule_witness :
    computeClip (Detection.element (some ⟨20, 30, 10, 10⟩)) =
      some (expandBy8 ⟨20, 30, 10, 10⟩) ∧
    computeClip Detection.throws = none := by
  constructor
  · exact ((computeClip_rule (Detection.element (some ⟨20, 30, 10, 10⟩))).1
      ⟨20, 30, 10, 10⟩ rfl (by decide) (by decide)).2 (by decide) (by decide)
  · exact (computeClip_rule Detection.throws).2.1 (Or.inl rfl)

/-- **C8 counterexample.** For an element whose bounding box touches the
page origin (x = y = 0), the clip is *not* the box expanded by 8px on all
sides: the code clamps the top-left corner at 0 while still adding 16 to
the dimensions, so the clip differs from the claimed uniform expansion. -/
theorem computeClip_counterexample :
    computeClip (Detection.element (some ⟨0, 0, 10, 10⟩)) =
      some { x := 0, y := 0, width := 26, height := 26 } ∧
    expandBy8 ⟨0, 0, 10, 10⟩ = { x := -8, y := -8, width := 26, height := 26 } ∧
    computeClip (Detection.element (some ⟨0, 0, 10, 10⟩)) ≠
      some (expandBy8 ⟨0, 0, 10, 10⟩) := by
  refine ⟨by decide, by decide, by decide⟩

/-! ### C9: browser-session lifecycle of the screenshot-post handler
(src/unnamed/part_000:45-146)

The handler's control flow over the browser resource is modelled by the
environment outcomes that drive it: which launch succeeds, whether each of
the page operations of the try block succeeds, and whether `browser.close()`
itself succeeds.  The model tracks whether a session was acquired, how many
close attempts were made, and whether a session remains open on return. -/

structure RenderEnv where
  runningOnLambda : Bool
  localLaunchOk : Bool
  lambdaLaunchOk : Bool
  opsOk : List Bool
  closeOk : Bool
deriving DecidableEq

structure RenderOutcome where
  status : Nat
  acquired : Bool
  closeAttempts : Nat
  sessionOpen : Bool
deriving DecidableEq

/-- The engine-selection logic (src/unnamed/part_000:49-72): outside Lambda
the local engine is tried first and its failure falls back to the bundled
engine; on Lambda the bundled engine is used directly.  The browser is
acquired iff the chosen launch succeeds. -/
def acquireOk (e : RenderEnv) : Bool :=
  if !e.runningOnLambda && e.localLaunchOk then true else e.lambdaLaunchOk

/-- The whole try/catch of the handler (src/unnamed/part_000:45-146): on a
launch failure the catch runs with `browser` still null and no close is
attempted; after acquisition, a failing page operation reaches the catch,
which attempts one close; on full success `browser.close()` is awaited
before the 200 response, and if that very close throws, the catch attempts a
second close (also failing, since `closeOk` models the close capability). -/
def runScreenshotRender (e : RenderEnv) : RenderOutcome :=
  if acquireOk e = false then
    { status := 500, acquired := false, closeAttempts := 0, sessionOpen := false }
  else if e.opsOk.all (fun b => b) then
    if e.closeOk then
      { status := 200, acquired := true, closeAttempts := 1, sessionOpen := false }
    else
      { status := 500, acquired := true, closeAttempts := 2, sessionOpen := true }
  else
    { status := 500, acquired := true, closeAttempts := 1, sessionOpen := !e.closeOk }

/-- **C9.** On every exit path of the render pipeline — the successful
capture as well as any failure during launch, navigation, style injection or
capture — a close of the acquired browser session is attempted before the
result or error is surfaced (at least one attempt whenever a session was
acquired, none needed when launch itself failed), and whenever the close
capability works no session outlives the invocation. -/
theorem renderSession_closed (e : RenderEnv) :
    ((runScreenshotRender e).acquired = true → 1 ≤ (runScreenshotRender e).closeAttempts) ∧
    ((runScreenshotRender e).acquired = false →
      (runScreenshotRender e).closeAttempts = 0 ∧
        (runScreenshotRender e).sessionOpen = false) ∧
    (e.closeOk = true → (runScreenshotRender e).sessionOpen = false) ∧
    ((runScreenshotRender e).acquired = true ↔ acquireOk e = true) := by
  unfold runScreenshotRender
  by_cases ha : acquireOk e = false
  · simp [ha]
  · have ha2 : acquireOk e = true := by simpa using ha
    by_cases hops : e.opsOk.all (fun b => b) = true
    · by_cases hc : e.closeOk = true
      · simp [ha, ha2, hops, hc]
      · have hc2 : e.closeOk = false := by simpa using hc
        simp [ha, ha2, hops, hc2]
    · have hops2 : e.opsOk.all (fun b => b) = false := by simpa using hops
      by_cases hc : e.closeOk = true
      · simp [ha, ha2, hops2, hc]
      · have hc2 : e.closeOk = false := by simpa using hc
        simp [ha, ha2, hops2, hc2]

/-- Witness for `renderSession_closed`: a navigation failure after a
successful local launch still attempts (and achieves) a close. -/
theorem renderSession_closed_witness :
    1 ≤ (runScreenshotRender
      { runningOnLambda := false, localLaunchOk := true, lambdaLaunchOk := false,
        opsOk := [true, false], closeOk := true }).closeAttempts ∧
    (runScreenshotRender
      { runningOnLambda := false, localLaunchOk := true, lambdaLaunchOk := false,
        opsOk := [true, false], closeOk := true }).sessionOpen = false := by
  constructor
  · exact (renderSession_closed
      { runningOnLambda := false, localLaunchOk := true, lambdaLaunchOk := false,
        opsOk := [true, false], closeOk := true }).1 (by decide)
  · exact (renderSession_closed
      { runningOnLambda := false, localLaunchOk := true, lambdaLaunchOk := false,
        opsOk := [true, false], closeOk := true }).2.2.1 (by decide)
